import Mathlib

/-!
Verification of the PetWatcher notification core (src/notifications.py).

The Python class NotificationManager is embedded shallowly:

* per-subject mutable state (the defaultdicts detection_streak and
  last_notification, and the set current_state) becomes an explicit
  NMState record of association lists, updated functionally;
* process_detections becomes a pure function from a frame (its list of
  detection dicts) and the current wall-clock time to the next state and
  the list of emitted notifications;
* time is modelled as an integer number of seconds; Python's
  datetime.min sentinel becomes the concrete epoch offset of
  0001-01-01 00:00:00 (datetimeMin below), so the cooldown comparison
  (now - last).total_seconds() >= cooldown_seconds is exact integer
  arithmetic.  Within one process_detections call the code consults
  datetime.now() several times; the model uses a single per-frame time,
  which is the standard abstraction for such code;
* the snapshot store (_save_snapshot / _cleanup_old_images) is modelled
  over an explicit list of on-disk artifacts; Python exceptions
  (Path.unlink on a missing file) are modelled with Except;
* send_notification's for-loop with try/except is modelled as a fold
  that records every attempted platform and the printed diagnostics;
  a separate timed model captures that the awaits are sequential.
-/

set_option autoImplicit false

namespace PetWatcher

/-- ASCII lowercasing, the effect of Python str.lower() on the label
    strings this program handles. -/
def pyLower (s : String) : String :=
  ⟨s.data.map Char.toLower⟩

/-- Python str.capitalize(): first character uppercased, the rest
    lowercased. -/
def pyCapitalize (s : String) : String :=
  match s.data with
  | [] => ""
  | c :: cs => ⟨c.toUpper :: cs.map Char.toLower⟩

/-- Round-half-to-even on an exact rational, the rounding Python's
    format spec .0% applies to the scaled confidence value. -/
def pyRoundHalfEven (q : ℚ) : ℤ :=
  if q - ⌊q⌋ = 1 / 2 then (if Even ⌊q⌋ then ⌊q⌋ else ⌊q⌋ + 1) else round q

/-- Rendering of the confidence as a percentage, the effect of the
    format spec .0% minus its trailing percent sign (which the message
    templates below append literally). -/
def pctString (c : ℚ) : String :=
  toString (pyRoundHalfEven (100 * c))

/-- The fields of the detection dicts that notifications.py reads:
    label and confidence (box, color and type are only passed through
    to drawing code). -/
structure Detection where
  label : String
  confidence : ℚ
deriving DecidableEq

/-- The NotificationManager configuration fields the decision logic
    reads. -/
structure Config where
  cooldownSeconds : Int
  persistenceFrames : Nat
  saveImages : Bool
  maxImages : Nat
deriving DecidableEq

/-- Seconds from Python's datetime.min (0001-01-01 00:00:00) to the
    epoch, negated: the sentinel timestamp of a never-notified subject;
    719162 days of 86400 seconds each. -/
def datetimeMin : Int := -62135596800

/-- defaultdict-style lookup in an association list: the stored value
    when the key is present, the default otherwise. -/
def lookupD {α : Type} (m : List (String × α)) (k : String) (dflt : α) : α :=
  match m with
  | [] => dflt
  | (k', v) :: rest => if k' = k then v else lookupD rest k dflt

/-- Store a value under a key, keeping the key's position when it is
    already present and appending it otherwise, as a Python dict does. -/
def setD {α : Type} (m : List (String × α)) (k : String) (v : α) : List (String × α) :=
  match m with
  | [] => [(k, v)]
  | (k', v') :: rest => if k' = k then (k, v) :: rest else (k', v') :: setD rest k v

/-- The keys of an association list, in insertion order. -/
def keysOf {α : Type} (m : List (String × α)) : List String :=
  m.map Prod.fst

/-- The mutable state of a NotificationManager: last_notification,
    current_state and detection_streak. -/
structure NMState where
  lastNotification : List (String × Int)
  currentState : List String
  detectionStreak : List (String × Nat)
deriving DecidableEq

/-- The state right after __init__: all three containers empty. -/
def NMState.initial : NMState := ⟨[], [], []⟩

/-- NotificationManager._is_cooled_down: whether at least
    cooldown_seconds have passed since the subject's last notification
    (datetime.min when never notified). -/
def isCooledDown (cfg : Config) (st : NMState) (subject : String) (now : Int) : Bool :=
  decide (now - lookupD st.lastNotification subject datetimeMin ≥ cfg.cooldownSeconds)

/-- NotificationManager._create_notification: the message templates of
    the source, with the source's literal emoji prefixes. -/
def createNotification (subject : String) (confidence : ℚ) (timestamp : String) : String :=
  if subject = "miso" then
    "üê± Miso detected! (" ++ pctString confidence ++ "% confident) at " ++ timestamp
  else if subject = "ozzy" then
    "üê± Ozzy detected! (" ++ pctString confidence ++ "% confident) at " ++ timestamp
  else if subject = "person" then
    "üë§ Person detected! (" ++ pctString confidence ++ "% confident) at " ++ timestamp
  else
    "üîç " ++ pyCapitalize subject ++ " detected! (" ++ pctString confidence ++ "% confident) at " ++ timestamp

/-- One entry of the list process_detections returns. -/
structure Notification where
  subject : String
  message : String
  imagePath : Option String
  detection : Detection
deriving DecidableEq

/-- The filename _save_snapshot builds for a notification's snapshot. -/
def snapshotName (subject : String) (timestamp : String) : String :=
  subject ++ "_" ++ timestamp ++ ".jpg"

/-- The body of the per-detection loop of process_detections: update
    the subject's streak, and when the streak has reached the
    persistence threshold, the subject is not already in current_state
    and the cooldown has expired, emit a notification, record the
    notification time and add the subject to current_state. -/
def processDet (cfg : Config) (now : Int) (ts : String)
    (acc : NMState × List Notification) (det : Detection) : NMState × List Notification :=
  let st := acc.1
  let subject := pyLower det.label
  let streak1 := lookupD st.detectionStreak subject 0 + 1
  let st1 : NMState := { st with detectionStreak := setD st.detectionStreak subject streak1 }
  if streak1 ≥ cfg.persistenceFrames ∧ ¬ subject ∈ st1.currentState ∧
      isCooledDown cfg st1 subject now = true then
    ({ st1 with
        lastNotification := setD st1.lastNotification subject now
        currentState := st1.currentState ++ [subject] },
     acc.2 ++ [{ subject := subject
                 message := createNotification subject det.confidence ts
                 imagePath := if cfg.saveImages then some (snapshotName subject ts) else none
                 detection := det }])
  else
    (st1, acc.2)

/-- The set current_frame_subjects built during the loop: the
    lowercased labels of the frame's detections. -/
def frameSubjects (dets : List Detection) : List String :=
  dets.map (fun d => pyLower d.label)

/-- The trailing loop of process_detections: every tracked subject
    absent from the frame has its streak reset to 0 and is removed from
    current_state if it was there. -/
def resetAbsent (frame : List String) (st : NMState) : NMState :=
  { st with
    detectionStreak :=
      st.detectionStreak.map (fun p => if p.1 ∈ frame then p else (p.1, 0))
    currentState :=
      st.currentState.filter
        (fun s => decide (s ∈ frame) || ! decide (s ∈ keysOf st.detectionStreak)) }

/-- NotificationManager.process_detections at wall-clock time now, with
    ts the formatted timestamp string used in messages and filenames:
    the next state and the returned notification list. -/
def processDetections (cfg : Config) (now : Int) (ts : String)
    (dets : List Detection) (st : NMState) : NMState × List Notification :=
  let r := dets.foldl (processDet cfg now ts) (st, [])
  (resetAbsent (frameSubjects dets) r.1, r.2)

/-- A sequence of process_detections calls, one per frame; each frame
    carries its time, its timestamp string and its detection list.
    Returns the final state and the per-frame notification lists. -/
def runFrames (cfg : Config) (frames : List (Int × String × List Detection))
    (st : NMState) : NMState × List (List Notification) :=
  match frames with
  | [] => (st, [])
  | f :: rest =>
    let r := processDetections cfg f.1 f.2.1 f.2.2 st
    let rr := runFrames cfg rest r.1
    (rr.1, r.2 :: rr.2)

/-- The per-subject slice of the manager state: the subject's streak,
    whether it is in current_state, and its last notification time. -/
structure SubjView where
  streak : Nat
  present : Bool
  lastN : Int
deriving DecidableEq

/-- Project the state onto one subject. -/
def NMState.view (st : NMState) (s : String) : SubjView :=
  ⟨lookupD st.detectionStreak s 0, decide (s ∈ st.currentState), lookupD st.lastNotification s datetimeMin⟩

/-- Well-formedness: every subject in current_state has a streak entry.
    This holds in every reachable state because the code adds a subject
    to current_state only after incrementing (hence creating) its
    streak entry. -/
def NMState.wf (st : NMState) : Prop :=
  ∀ s, s ∈ st.currentState → s ∈ keysOf st.detectionStreak

/-- The effect of one detection of a subject on that subject's slice,
    together with the number of notifications it emits (0 or 1). -/
def subjDetStep (cfg : Config) (now : Int) (v : SubjView) : SubjView × Nat :=
  if v.streak + 1 ≥ cfg.persistenceFrames ∧ v.present = false ∧
      now - v.lastN ≥ cfg.cooldownSeconds then
    (⟨v.streak + 1, true, now⟩, 1)
  else
    (⟨v.streak + 1, v.present, v.lastN⟩, 0)

/-- Iterate subjDetStep for the subject's detections of one frame,
    summing the emitted notification counts. -/
def subjHits (cfg : Config) (now : Int) : Nat → SubjView → SubjView × Nat
  | 0, v => (v, 0)
  | n + 1, v =>
    let r := subjDetStep cfg now v
    let rr := subjHits cfg now n r.1
    (rr.1, r.2 + rr.2)

/-- The effect of one whole frame on one subject's slice: h detections
    of the subject followed by the absent-subject reset when h = 0. -/
def subjFrame (cfg : Config) (now : Int) (h : Nat) (v : SubjView) : SubjView × Nat :=
  if h = 0 then (⟨0, false, v.lastN⟩, 0) else subjHits cfg now h v

/-- The effect of a sequence of frames, given each frame's time and the
    subject's number of detections in it; returns the per-frame
    notification counts. -/
def subjRunFrames (cfg : Config) : List (Int × Nat) → SubjView → SubjView × List Nat
  | [], v => (v, [])
  | f :: rest, v =>
    let r := subjFrame cfg f.1 f.2 v
    let rr := subjRunFrames cfg rest r.1
    (rr.1, r.2 :: rr.2)

/-- How many of a frame's detections bear the subject's (lowercased)
    label. -/
def hits (s : String) : List Detection → Nat
  | [] => 0
  | d :: rest => (if pyLower d.label = s then 1 else 0) + hits s rest

/-- How many notifications in a list are for the subject. -/
def countSubj (s : String) (ns : List Notification) : Nat :=
  (ns.filter (fun n => n.subject == s)).length

theorem lookupD_setD {α : Type} (m : List (String × α)) (k k' : String) (v : α) (dflt : α) :
    lookupD (setD m k v) k' dflt = if k = k' then v else lookupD m k' dflt := by
  induction m with
  | nil => simp [setD, lookupD]
  | cons p rest ih =>
    by_cases hp : p.1 = k
    · by_cases hk : k = k'
      · simp [setD, hp, lookupD, hk]
      · have hp' : p.1 ≠ k' := by rw [hp]; exact hk
        simp [setD, hp, lookupD, hk, hp']
    · by_cases hp' : p.1 = k'
      · have hk : k ≠ k' := by
          intro e
          exact hp (by rw [hp', e])
        simp [setD, hp, lookupD, hp', hk, Ne.symm hk]
      · simp [setD, hp, lookupD, hp', ih]

theorem mem_keysOf_setD {α : Type} (m : List (String × α)) (k k' : String) (v : α) :
    k' ∈ keysOf (setD m k v) ↔ k' ∈ keysOf m ∨ k' = k := by
  induction m with
  | nil => simp [setD, keysOf]
  | cons p rest ih =>
    by_cases hp : p.1 = k
    · subst hp
      simp [setD, keysOf]
      tauto
    · simp [setD, hp, keysOf] at ih ⊢
      tauto

theorem lookupD_setD_self {α : Type} (m : List (String × α)) (k : String) (v : α) (dflt : α) :
    lookupD (setD m k v) k dflt = v := by
  simp [lookupD_setD]

theorem lookupD_setD_ne {α : Type} (m : List (String × α)) (k k' : String) (v : α) (dflt : α)
    (h : k' ≠ k) : lookupD (setD m k v) k' dflt = lookupD m k' dflt := by
  simp [lookupD_setD, Ne.symm h]

theorem lookupD_eq_dflt_of_not_mem {α : Type} (m : List (String × α)) (k : String) (dflt : α)
    (h : ¬ k ∈ keysOf m) : lookupD m k dflt = dflt := by
  induction m with
  | nil => rfl
  | cons p rest ih =>
    simp only [keysOf, List.map_cons, List.mem_cons] at h
    push_neg at h
    simp only [lookupD]
    rw [if_neg (fun e => h.1 e.symm)]
    exact ih h.2

theorem lookupD_resetMap (m : List (String × Nat)) (fr : List String) (s : String) :
    lookupD (m.map (fun p => if p.1 ∈ fr then p else (p.1, 0))) s 0 =
      if s ∈ fr then lookupD m s 0 else 0 := by
  induction m with
  | nil => simp [lookupD]
  | cons p rest ih =>
    simp only [List.map_cons]
    by_cases hf : p.1 ∈ fr
    · rw [if_pos hf]
      by_cases hp : p.1 = s
      · have hsf : s ∈ fr := hp ▸ hf
        simp [lookupD, hp, hsf]
      · simp only [lookupD, if_neg hp, ih]
    · rw [if_neg hf]
      by_cases hp : p.1 = s
      · have hsf : ¬ s ∈ fr := hp ▸ hf
        simp [lookupD, hp, hsf]
      · simp only [lookupD, if_neg hp, ih]

theorem keysOf_resetMap (m : List (String × Nat)) (fr : List String) :
    keysOf (m.map (fun p => if p.1 ∈ fr then p else (p.1, 0))) = keysOf m := by
  induction m with
  | nil => rfl
  | cons p rest ih =>
    by_cases hf : p.1 ∈ fr
    · simp [keysOf, hf] at ih ⊢
      exact ih
    · simp [keysOf, hf] at ih ⊢
      exact ih

theorem countSubj_nil (s : String) : countSubj s [] = 0 := rfl

theorem countSubj_append (s : String) (ns ms : List Notification) :
    countSubj s (ns ++ ms) = countSubj s ns + countSubj s ms := by
  simp [countSubj]

theorem countSubj_singleton (s : String) (n : Notification) :
    countSubj s [n] = if n.subject = s then 1 else 0 := by
  by_cases h : n.subject = s
  · simp [countSubj, h]
  · simp [countSubj, h]

theorem mem_frameSubjects (s : String) (dets : List Detection) :
    s ∈ frameSubjects dets ↔ hits s dets ≠ 0 := by
  induction dets with
  | nil => simp [frameSubjects, hits]
  | cons d rest ih =>
    by_cases hd : pyLower d.label = s
    · simp [frameSubjects, hits, hd]
    · simp [frameSubjects, hits, hd, Ne.symm hd] at ih ⊢
      exact ih

theorem processDet_view_hit (cfg : Config) (now : Int) (ts : String)
    (acc : NMState × List Notification) (det : Detection) (s : String)
    (hdet : pyLower det.label = s) :
    (processDet cfg now ts acc det).1.view s = (subjDetStep cfg now (acc.1.view s)).1
    ∧ countSubj s (processDet cfg now ts acc det).2
        = countSubj s acc.2 + (subjDetStep cfg now (acc.1.view s)).2 := by
  obtain ⟨st, ns⟩ := acc
  by_cases hc : cfg.persistenceFrames ≤ lookupD st.detectionStreak s 0 + 1 ∧
      ¬ s ∈ st.currentState ∧
      cfg.cooldownSeconds ≤ now - lookupD st.lastNotification s datetimeMin
  · simp [processDet, subjDetStep, NMState.view, isCooledDown, hdet, hc.1, hc.2.1, hc.2.2,
      lookupD_setD_self, countSubj_append, countSubj_singleton]
  · simp only [processDet, subjDetStep, NMState.view, isCooledDown, hdet,
      ge_iff_le, decide_eq_true_eq, decide_eq_false_iff_not]
    rw [if_neg, if_neg]
    · simp [NMState.view, lookupD_setD_self]
    · exact fun h => hc ⟨h.1, by simpa using h.2.1, h.2.2⟩
    · exact fun h => hc ⟨h.1, h.2.1, h.2.2⟩

theorem processDet_view_miss (cfg : Config) (now : Int) (ts : String)
    (acc : NMState × List Notification) (det : Detection) (s : String)
    (hdet : pyLower det.label ≠ s) :
    (processDet cfg now ts acc det).1.view s = acc.1.view s
    ∧ countSubj s (processDet cfg now ts acc det).2 = countSubj s acc.2 := by
  obtain ⟨st, ns⟩ := acc
  by_cases hc : cfg.persistenceFrames ≤ lookupD st.detectionStreak (pyLower det.label) 0 + 1 ∧
      ¬ pyLower det.label ∈ st.currentState ∧
      cfg.cooldownSeconds ≤ now - lookupD st.lastNotification (pyLower det.label) datetimeMin
  · simp [processDet, NMState.view, isCooledDown, hc.1, hc.2.1, hc.2.2,
      lookupD_setD_ne _ _ _ _ _ hdet.symm, countSubj_append, countSubj_singleton, hdet,
      Ne.symm hdet]
  · simp only [processDet, NMState.view, isCooledDown,
      ge_iff_le, decide_eq_true_eq, decide_eq_false_iff_not]
    rw [if_neg]
    · simp [NMState.view, lookupD_setD_ne _ _ _ _ _ hdet.symm]
    · exact fun h => hc ⟨h.1, by simpa using h.2.1, h.2.2⟩

theorem subjHits_zero (cfg : Config) (now : Int) (v : SubjView) :
    subjHits cfg now 0 v = (v, 0) := rfl

theorem subjHits_succ (cfg : Config) (now : Int) (n : Nat) (v : SubjView) :
    subjHits cfg now (n + 1) v =
      ((subjHits cfg now n (subjDetStep cfg now v).1).1,
       (subjDetStep cfg now v).2 + (subjHits cfg now n (subjDetStep cfg now v).1).2) := rfl

theorem foldl_processDet_view (cfg : Config) (now : Int) (ts : String) (dets : List Detection) :
    ∀ (st : NMState) (ns : List Notification) (s : String),
    (dets.foldl (processDet cfg now ts) (st, ns)).1.view s
        = (subjHits cfg now (hits s dets) (st.view s)).1
    ∧ countSubj s (dets.foldl (processDet cfg now ts) (st, ns)).2
        = countSubj s ns + (subjHits cfg now (hits s dets) (st.view s)).2 := by
  induction dets with
  | nil =>
    intro st ns s
    simp [hits, subjHits_zero]
  | cons d rest ih =>
    intro st ns s
    rw [List.foldl_cons]
    obtain ⟨ihv, ihc⟩ := ih (processDet cfg now ts (st, ns) d).1 (processDet cfg now ts (st, ns) d).2 s
    by_cases hd : pyLower d.label = s
    · obtain ⟨hv, hc⟩ := processDet_view_hit cfg now ts (st, ns) d s hd
      have hh : hits s (d :: rest) = hits s rest + 1 := by
        simp [hits, hd, Nat.add_comm]
      constructor
      · rw [ihv, hv, hh, subjHits_succ]
      · rw [ihc, hc, hv, hh, subjHits_succ]
        ring
    · obtain ⟨hv, hc⟩ := processDet_view_miss cfg now ts (st, ns) d s hd
      have hh : hits s (d :: rest) = hits s rest := by
        simp [hits, hd]
      constructor
      · rw [ihv, hv, hh]
      · rw [ihc, hc, hv, hh]

theorem processDet_wf (cfg : Config) (now : Int) (ts : String)
    (acc : NMState × List Notification) (det : Detection) (h : acc.1.wf) :
    (processDet cfg now ts acc det).1.wf := by
  obtain ⟨st, ns⟩ := acc
  simp only [processDet]
  split
  · intro s hs
    simp only [List.mem_append, List.mem_singleton] at hs
    rcases hs with hs | hs
    · exact (mem_keysOf_setD _ _ _ _).2 (Or.inl (h s hs))
    · exact (mem_keysOf_setD _ _ _ _).2 (Or.inr hs)
  · intro s hs
    exact (mem_keysOf_setD _ _ _ _).2 (Or.inl (h s hs))

theorem foldl_processDet_wf (cfg : Config) (now : Int) (ts : String) (dets : List Detection) :
    ∀ (acc : NMState × List Notification), acc.1.wf →
    (dets.foldl (processDet cfg now ts) acc).1.wf := by
  induction dets with
  | nil => exact fun acc h => h
  | cons d rest ih =>
    intro acc h
    rw [List.foldl_cons]
    exact ih _ (processDet_wf cfg now ts acc d h)

theorem resetAbsent_wf (fr : List String) (st : NMState) (h : st.wf) :
    (resetAbsent fr st).wf := by
  intro s hs
  simp only [resetAbsent, List.mem_filter] at hs
  rw [resetAbsent, keysOf_resetMap]
  exact h s hs.1

theorem resetAbsent_view (fr : List String) (st : NMState) (s : String) (hwf : st.wf) :
    (resetAbsent fr st).view s =
      if s ∈ fr then st.view s else ⟨0, false, (st.view s).lastN⟩ := by
  by_cases hf : s ∈ fr
  · rw [if_pos hf]
    simp only [NMState.view, resetAbsent, lookupD_resetMap, if_pos hf]
    congr 1
    simp [List.mem_filter, hf]
  · rw [if_neg hf]
    simp only [NMState.view, resetAbsent, lookupD_resetMap, if_neg hf]
    congr 1
    simp only [decide_eq_false_iff_not, List.mem_filter]
    intro hmem
    rcases hmem with ⟨hcs, hb⟩
    simp only [Bool.or_eq_true, decide_eq_true_eq, Bool.not_eq_true',
      decide_eq_false_iff_not] at hb
    rcases hb with hb | hb
    · exact hf hb
    · exact hb (hwf s hcs)

theorem processDetections_view (cfg : Config) (now : Int) (ts : String)
    (dets : List Detection) (st : NMState) (s : String) (hwf : st.wf) :
    (processDetections cfg now ts dets st).1.view s
        = (subjFrame cfg now (hits s dets) (st.view s)).1
    ∧ countSubj s (processDetections cfg now ts dets st).2
        = (subjFrame cfg now (hits s dets) (st.view s)).2
    ∧ (processDetections cfg now ts dets st).1.wf := by
  obtain ⟨hv, hc⟩ := foldl_processDet_view cfg now ts dets st [] s
  have hwf1 : (dets.foldl (processDet cfg now ts) (st, [])).1.wf :=
    foldl_processDet_wf cfg now ts dets (st, []) hwf
  by_cases hz : hits s dets = 0
  · have hmem : ¬ s ∈ frameSubjects dets := by
      rw [mem_frameSubjects]
      simp [hz]
    refine ⟨?_, ?_, resetAbsent_wf _ _ hwf1⟩
    · show (resetAbsent (frameSubjects dets) _).view s = _
      rw [resetAbsent_view _ _ _ hwf1, if_neg hmem, hv, hz, subjHits_zero]
      simp [subjFrame]
    · show countSubj s (dets.foldl (processDet cfg now ts) (st, [])).2 = _
      rw [hc, hz, subjHits_zero]
      simp [subjFrame, countSubj_nil]
  · have hmem : s ∈ frameSubjects dets := (mem_frameSubjects s dets).2 hz
    refine ⟨?_, ?_, resetAbsent_wf _ _ hwf1⟩
    · show (resetAbsent (frameSubjects dets) _).view s = _
      rw [resetAbsent_view _ _ _ hwf1, if_pos hmem, hv]
      simp [subjFrame, hz]
    · show countSubj s (dets.foldl (processDet cfg now ts) (st, [])).2 = _
      rw [hc, countSubj_nil]
      simp [subjFrame, hz]

theorem runFrames_view (cfg : Config) (frames : List (Int × String × List Detection)) :
    ∀ (st : NMState) (s : String), st.wf →
    (runFrames cfg frames st).1.view s
        = (subjRunFrames cfg (frames.map (fun f => (f.1, hits s f.2.2))) (st.view s)).1
    ∧ (runFrames cfg frames st).2.map (countSubj s)
        = (subjRunFrames cfg (frames.map (fun f => (f.1, hits s f.2.2))) (st.view s)).2
    ∧ (runFrames cfg frames st).1.wf := by
  induction frames with
  | nil =>
    intro st s hwf
    exact ⟨rfl, rfl, hwf⟩
  | cons f rest ih =>
    intro st s hwf
    obtain ⟨hv, hc, hwf1⟩ := processDetections_view cfg f.1 f.2.1 f.2.2 st s hwf
    obtain ⟨ihv, ihc, ihwf⟩ := ih (processDetections cfg f.1 f.2.1 f.2.2 st).1 s hwf1
    refine ⟨?_, ?_, ihwf⟩
    · simp only [runFrames, subjRunFrames, List.map_cons]
      rw [ihv, hv]
    · simp only [runFrames, subjRunFrames, List.map_cons, List.map]
      rw [ihc, hv, hc]

/-- The timed hit counts of a run in which the subject is detected by
    exactly one detection per frame. -/
def onesFrames (ts : List Int) : List (Int × Nat) :=
  ts.map (fun t => (t, 1))

theorem subjRunFrames_append (cfg : Config) (l1 l2 : List (Int × Nat)) (v : SubjView) :
    subjRunFrames cfg (l1 ++ l2) v =
      ((subjRunFrames cfg l2 (subjRunFrames cfg l1 v).1).1,
       (subjRunFrames cfg l1 v).2 ++ (subjRunFrames cfg l2 (subjRunFrames cfg l1 v).1).2) := by
  induction l1 generalizing v with
  | nil => simp [subjRunFrames]
  | cons f rest ih =>
    simp only [List.cons_append, subjRunFrames, List.append_eq]
    rw [ih]

theorem onesFrames_cons (t : Int) (rest : List Int) :
    onesFrames (t :: rest) = (t, 1) :: onesFrames rest := rfl

theorem subjFrame_one (cfg : Config) (now : Int) (v : SubjView) :
    subjFrame cfg now 1 v = ((subjDetStep cfg now v).1, (subjDetStep cfg now v).2) := by
  simp [subjFrame, subjHits]

theorem subjDetStep_fire (cfg : Config) (now : Int) (v : SubjView)
    (hp : v.present = false) (hk : cfg.persistenceFrames ≤ v.streak + 1)
    (hc : cfg.cooldownSeconds ≤ now - v.lastN) :
    subjDetStep cfg now v = (⟨v.streak + 1, true, now⟩, 1) := by
  simp [subjDetStep, hp, hk, hc]

theorem subjDetStep_noFire_streak (cfg : Config) (now : Int) (v : SubjView)
    (hk : v.streak + 1 < cfg.persistenceFrames) :
    subjDetStep cfg now v = (⟨v.streak + 1, v.present, v.lastN⟩, 0) := by
  have h : ¬ (v.streak + 1 ≥ cfg.persistenceFrames ∧ v.present = false ∧
      now - v.lastN ≥ cfg.cooldownSeconds) := by
    intro h
    exact absurd h.1 (by omega)
  simp [subjDetStep, h]

theorem subjDetStep_noFire_cooldown (cfg : Config) (now : Int) (v : SubjView)
    (hc : ¬ cfg.cooldownSeconds ≤ now - v.lastN) :
    subjDetStep cfg now v = (⟨v.streak + 1, v.present, v.lastN⟩, 0) := by
  have h : ¬ (v.streak + 1 ≥ cfg.persistenceFrames ∧ v.present = false ∧
      now - v.lastN ≥ cfg.cooldownSeconds) := by
    intro h
    exact hc h.2.2
  simp [subjDetStep, h]

theorem subjDetStep_present (cfg : Config) (now : Int) (v : SubjView)
    (hp : v.present = true) :
    subjDetStep cfg now v = (⟨v.streak + 1, true, v.lastN⟩, 0) := by
  have h : ¬ (v.streak + 1 ≥ cfg.persistenceFrames ∧ v.present = false ∧
      now - v.lastN ≥ cfg.cooldownSeconds) := by
    intro h
    rw [hp] at h
    exact absurd h.2.1 (by simp)
  simp [subjDetStep, h, hp]

theorem subjRun_noFire_streak (cfg : Config) (ts : List Int) :
    ∀ (v : SubjView), v.present = false → v.streak + ts.length < cfg.persistenceFrames →
    subjRunFrames cfg (onesFrames ts) v =
      (⟨v.streak + ts.length, false, v.lastN⟩, List.replicate ts.length 0) := by
  induction ts with
  | nil =>
    intro v hp _
    obtain ⟨a, b, c⟩ := v
    simp only at hp
    subst hp
    simp [onesFrames, subjRunFrames]
  | cons t rest ih =>
    intro v hp hk
    simp only [onesFrames_cons, subjRunFrames, List.length_cons]
    rw [subjFrame_one, subjDetStep_noFire_streak cfg t v (by simp at hk; omega), hp]
    dsimp only
    have ihh := ih ⟨v.streak + 1, false, v.lastN⟩ rfl (by simp at hk ⊢; omega)
    dsimp only [onesFrames] at ihh
    rw [ihh]
    simp [List.replicate_succ]
    omega

theorem subjRun_noFire_cooldown (cfg : Config) (ts : List Int) :
    ∀ (v : SubjView), v.present = false →
    (∀ t ∈ ts, ¬ cfg.cooldownSeconds ≤ t - v.lastN) →
    subjRunFrames cfg (onesFrames ts) v =
      (⟨v.streak + ts.length, false, v.lastN⟩, List.replicate ts.length 0) := by
  induction ts with
  | nil =>
    intro v hp _
    obtain ⟨a, b, c⟩ := v
    simp only at hp
    subst hp
    simp [onesFrames, subjRunFrames]
  | cons t rest ih =>
    intro v hp hc
    simp only [onesFrames_cons, subjRunFrames, List.length_cons]
    rw [subjFrame_one, subjDetStep_noFire_cooldown cfg t v (hc t (by simp)), hp]
    dsimp only
    have ihh := ih ⟨v.streak + 1, false, v.lastN⟩ rfl (fun u hu => hc u (by simp [hu]))
    dsimp only [onesFrames] at ihh
    rw [ihh]
    simp [List.replicate_succ]
    omega

theorem subjRun_present (cfg : Config) (ts : List Int) :
    ∀ (v : SubjView), v.present = true →
    subjRunFrames cfg (onesFrames ts) v =
      (⟨v.streak + ts.length, true, v.lastN⟩, List.replicate ts.length 0) := by
  induction ts with
  | nil =>
    intro v hp
    obtain ⟨a, b, c⟩ := v
    simp only at hp
    subst hp
    simp [onesFrames, subjRunFrames]
  | cons t rest ih =>
    intro v hp
    simp only [onesFrames_cons, subjRunFrames, List.length_cons]
    rw [subjFrame_one, subjDetStep_present cfg t v hp]
    dsimp only
    have ihh := ih ⟨v.streak + 1, true, v.lastN⟩ rfl
    dsimp only [onesFrames] at ihh
    rw [ihh]
    simp [List.replicate_succ]
    omega

theorem subjRun_fireLast (cfg : Config) (ts : List Int) (t : Int) (v : SubjView)
    (hp : v.present = false) (hk : v.streak + ts.length + 1 = cfg.persistenceFrames)
    (hc : cfg.cooldownSeconds ≤ t - v.lastN) :
    subjRunFrames cfg (onesFrames (ts ++ [t])) v =
      (⟨cfg.persistenceFrames, true, t⟩, List.replicate ts.length 0 ++ [1]) := by
  have happ : onesFrames (ts ++ [t]) = onesFrames ts ++ onesFrames [t] := by
    simp [onesFrames]
  rw [happ, subjRunFrames_append,
    subjRun_noFire_streak cfg ts v hp (by omega)]
  simp only [onesFrames, List.map_cons, List.map_nil, subjRunFrames]
  rw [subjFrame_one, subjDetStep_fire cfg t ⟨v.streak + ts.length, false, v.lastN⟩ rfl
    (by simp; omega) (by simpa using hc)]
  simp only [subjRunFrames]
  rw [hk]

theorem subjRun_fireFirstCooled (cfg : Config) (tsRej : List Int) (t : Int) (tsPost : List Int)
    (v : SubjView) (hp : v.present = false) (hk : cfg.persistenceFrames ≤ v.streak + 1)
    (hrej : ∀ u ∈ tsRej, ¬ cfg.cooldownSeconds ≤ u - v.lastN)
    (hc : cfg.cooldownSeconds ≤ t - v.lastN) :
    subjRunFrames cfg (onesFrames (tsRej ++ t :: tsPost)) v =
      (⟨v.streak + tsRej.length + 1 + tsPost.length, true, t⟩,
       List.replicate tsRej.length 0 ++ 1 :: List.replicate tsPost.length 0) := by
  have happ : onesFrames (tsRej ++ t :: tsPost) =
      onesFrames tsRej ++ ((t, 1) :: onesFrames tsPost) := by
    simp [onesFrames]
  rw [happ, subjRunFrames_append, subjRun_noFire_cooldown cfg tsRej v hp hrej]
  simp only [subjRunFrames]
  rw [subjFrame_one, subjDetStep_fire cfg t ⟨v.streak + tsRej.length, false, v.lastN⟩ rfl
    (by simp; omega) (by simpa using hc)]
  rw [subjRun_present cfg tsPost ⟨v.streak + tsRej.length + 1, true, t⟩ rfl]

/-- A run in which every frame contains exactly one detection, the same
    one each time, at the given per-frame times. -/
def singleFrames (d : Detection) (tstr : String) (ts : List Int) :
    List (Int × String × List Detection) :=
  ts.map (fun t => (t, tstr, [d]))

theorem subjFrame_zero (cfg : Config) (now : Int) (v : SubjView) :
    subjFrame cfg now 0 v = (⟨0, false, v.lastN⟩, 0) := rfl

theorem subjRun_single (cfg : Config) (t : Int) (v : SubjView) :
    subjRunFrames cfg [(t, 1)] v = ((subjDetStep cfg t v).1, [(subjDetStep cfg t v).2]) := by
  simp [subjRunFrames, subjFrame_one]

theorem hits_single (s : String) (d : Detection) (hd : pyLower d.label = s) :
    hits s [d] = 1 := by
  simp [hits, hd]

theorem singleFrames_hits (d : Detection) (tstr : String) (ts : List Int) (s : String)
    (hd : pyLower d.label = s) :
    (singleFrames d tstr ts).map (fun f => (f.1, hits s f.2.2)) = onesFrames ts := by
  simp [singleFrames, onesFrames, List.map_map, Function.comp, hits, hd]

theorem map_hits_ones (s : String) (frames : List (Int × String × List Detection))
    (hall : ∀ f ∈ frames, hits s f.2.2 = 1) :
    frames.map (fun f => (f.1, hits s f.2.2)) = onesFrames (frames.map Prod.fst) := by
  induction frames with
  | nil => rfl
  | cons f rest ih =>
    simp only [List.map_cons, onesFrames]
    rw [hall f (by simp)]
    have := ih (fun g hg => hall g (by simp [hg]))
    simp only [onesFrames] at this
    rw [this, List.map_map]

theorem wf_initial : NMState.initial.wf :=
  fun s hs => absurd hs (List.not_mem_nil s)

theorem view_initial (s : String) : NMState.initial.view s = ⟨0, false, datetimeMin⟩ := rfl

/-- C1: starting from streak 0 and not-present, with exactly one
    detection bearing the subject's label in each frame (other
    detections arbitrary) and the cooldown gate permitting at the k-th
    frame, process_detections emits no notification for the subject on
    frames 1..k-1 and exactly one on the k-th consecutive detecting
    frame; a threshold of at most 1 confirms on the first sighting. -/
theorem persistence_confirms_on_kth_frame (cfg : Config) (st : NMState) (s : String)
    (fs : List (Int × String × List Detection)) (g : Int × String × List Detection) (l : Int)
    (hwf : st.wf) (hview : st.view s = ⟨0, false, l⟩)
    (hall : ∀ f ∈ fs ++ [g], hits s f.2.2 = 1)
    (hcool : cfg.cooldownSeconds ≤ g.1 - l) :
    (1 ≤ cfg.persistenceFrames → fs.length + 1 = cfg.persistenceFrames →
      (runFrames cfg (fs ++ [g]) st).2.map (countSubj s)
        = List.replicate (cfg.persistenceFrames - 1) 0 ++ [1])
    ∧ (cfg.persistenceFrames ≤ 1 →
      (runFrames cfg [g] st).2.map (countSubj s) = [1]) := by
  constructor
  · intro _ hlen
    obtain ⟨_, hc, _⟩ := runFrames_view cfg (fs ++ [g]) st s hwf
    rw [hc, map_hits_ones s (fs ++ [g]) hall, hview]
    have hsplit : (fs ++ [g]).map Prod.fst = fs.map Prod.fst ++ [g.1] := by simp
    rw [hsplit, subjRun_fireLast cfg (fs.map Prod.fst) g.1 ⟨0, false, l⟩ rfl
      (by simpa using hlen) (by simpa using hcool)]
    have hl : (fs.map Prod.fst).length = cfg.persistenceFrames - 1 := by
      simp
      omega
    rw [hl]
  · intro hk1
    obtain ⟨_, hc, _⟩ := runFrames_view cfg [g] st s hwf
    have hone : hits s g.2.2 = 1 := hall g (by simp)
    have hmap : [g].map (fun f => (f.1, hits s f.2.2)) = [(g.1, 1)] := by simp [hone]
    rw [hc, hmap, hview, subjRun_single,
      subjDetStep_fire cfg g.1 ⟨0, false, l⟩ rfl (by simpa using hk1) (by simpa using hcool)]

/-- C10: when the streak has already reached the persistence threshold
    but the cooldown gate rejects, the subject is not marked present
    and its last-notified time is unchanged; while the subject stays
    continuously detected the gate is re-checked every frame, and the
    notification fires exactly on the first frame whose time has the
    cooldown expired. -/
theorem cooldown_rejection_rechecked (cfg : Config) (st : NMState) (s : String)
    (rej : List (Int × String × List Detection)) (g : Int × String × List Detection)
    (post : List (Int × String × List Detection)) (l : Int) (sk : Nat)
    (hwf : st.wf) (hview : st.view s = ⟨sk, false, l⟩)
    (hk : cfg.persistenceFrames ≤ sk + 1)
    (hall : ∀ f ∈ rej ++ g :: post, hits s f.2.2 = 1)
    (hrej : ∀ f ∈ rej, ¬ cfg.cooldownSeconds ≤ f.1 - l)
    (hcool : cfg.cooldownSeconds ≤ g.1 - l) :
    (runFrames cfg rej st).1.view s = ⟨sk + rej.length, false, l⟩
    ∧ (runFrames cfg (rej ++ g :: post) st).2.map (countSubj s)
        = List.replicate rej.length 0 ++ 1 :: List.replicate post.length 0 := by
  have hallrej : ∀ f ∈ rej, hits s f.2.2 = 1 := fun f hf => hall f (by simp [hf])
  have hrej2 : ∀ u ∈ rej.map Prod.fst, ¬ cfg.cooldownSeconds ≤ u - l := by
    intro u hu
    simp only [List.mem_map] at hu
    obtain ⟨f, hf, he⟩ := hu
    rw [← he]
    exact hrej f hf
  constructor
  · obtain ⟨hv, _, _⟩ := runFrames_view cfg rej st s hwf
    rw [hv, map_hits_ones s rej hallrej, hview,
      subjRun_noFire_cooldown cfg (rej.map Prod.fst) ⟨sk, false, l⟩ rfl (by simpa using hrej2)]
    simp
  · obtain ⟨_, hc, _⟩ := runFrames_view cfg (rej ++ g :: post) st s hwf
    rw [hc, map_hits_ones s (rej ++ g :: post) hall, hview]
    have hsplit : (rej ++ g :: post).map Prod.fst
        = rej.map Prod.fst ++ g.1 :: post.map Prod.fst := by simp
    rw [hsplit, subjRun_fireFirstCooled cfg (rej.map Prod.fst) g.1 (post.map Prod.fst)
      ⟨sk, false, l⟩ rfl (by simpa using hk) (by simpa using hrej2) (by simpa using hcool)]
    simp

/-- C8: a subject absent from the frame that had a nonzero streak or
    was marked present has its streak reset to 0 and its presence
    cleared by that same frame, and no notification is emitted for the
    disappearance. -/
theorem absent_resets_immediately (cfg : Config) (now : Int) (tstr : String)
    (dets : List Detection) (st : NMState) (s : String) (hwf : st.wf)
    (habs : hits s dets = 0)
    (_hne : (st.view s).streak ≠ 0 ∨ (st.view s).present = true) :
    ((processDetections cfg now tstr dets st).1.view s).streak = 0
    ∧ ((processDetections cfg now tstr dets st).1.view s).present = false
    ∧ countSubj s (processDetections cfg now tstr dets st).2 = 0 := by
  obtain ⟨hv, hc, _⟩ := processDetections_view cfg now tstr dets st s hwf
  rw [hv, hc, habs]
  simp [subjFrame]

/-- The number of frames of a run since the subject's last absent
    frame (the whole run when the subject was never absent), from the
    per-frame hit counts. -/
def sinceAbsent : List Nat → Nat
  | [] => 0
  | h :: t => if 0 ∈ t then sinceAbsent t else (if h = 0 then t.length else t.length + 1)

theorem sinceAbsent_of_not_mem (l : List Nat) (h : ¬ 0 ∈ l) : sinceAbsent l = l.length := by
  induction l with
  | nil => rfl
  | cons hh t ih =>
    simp only [List.mem_cons] at h
    push_neg at h
    simp [sinceAbsent, h.2, Ne.symm h.1]

theorem subjFrame_one_streak (cfg : Config) (now : Int) (v : SubjView) :
    ((subjFrame cfg now 1 v).1).streak = v.streak + 1 := by
  rw [subjFrame_one]
  unfold subjDetStep
  split <;> rfl

theorem subjRun_streak_since (cfg : Config) (hl : List (Int × Nat)) :
    ∀ v : SubjView, (∀ p ∈ hl, p.2 ≤ 1) →
    (subjRunFrames cfg hl v).1.streak =
      if 0 ∈ hl.map Prod.snd then sinceAbsent (hl.map Prod.snd)
      else v.streak + hl.length := by
  induction hl with
  | nil =>
    intro v _
    simp [subjRunFrames]
  | cons p rest ih =>
    intro v hle
    obtain ⟨tt, hh⟩ := p
    have hp : hh = 0 ∨ hh = 1 := by
      have := hle (tt, hh) (by simp)
      omega
    rcases hp with h0 | h1
    · subst h0
      simp only [subjRunFrames, subjFrame_zero]
      rw [ih ⟨0, false, v.lastN⟩ (fun q hq => hle q (by simp [hq]))]
      by_cases hz : 0 ∈ rest.map Prod.snd
      · simp [hz, sinceAbsent]
      · simp [hz, sinceAbsent]
    · subst h1
      simp only [subjRunFrames]
      rw [ih (subjFrame cfg tt 1 v).1 (fun q hq => hle q (by simp [hq]))]
      rw [subjFrame_one_streak]
      by_cases hz : 0 ∈ rest.map Prod.snd
      · simp [hz, sinceAbsent]
      · simp [hz, sinceAbsent]
        omega

theorem subjRun_streak_ones (cfg : Config) (hl : List (Int × Nat)) :
    ∀ v : SubjView, (∀ p ∈ hl, p.2 = 1) →
    (subjRunFrames cfg hl v).1.streak = v.streak + hl.length := by
  induction hl with
  | nil =>
    intro v _
    simp [subjRunFrames]
  | cons p rest ih =>
    intro v hone
    obtain ⟨tt, hh⟩ := p
    have h1 : hh = 1 := hone (tt, hh) (by simp)
    subst h1
    simp only [subjRunFrames]
    rw [ih (subjFrame cfg tt 1 v).1 (fun q hq => hone q (by simp [hq]))]
    rw [subjFrame_one_streak]
    simp
    omega

/-- The subject's streak after the first i frames of a run. -/
def streakAfter (cfg : Config) (frames : List (Int × String × List Detection))
    (st : NMState) (s : String) (i : Nat) : Nat :=
  ((runFrames cfg (frames.take i) st).1.view s).streak

/-- Configuration with the source defaults relevant here: 300 s
    cooldown and a 5-frame persistence threshold. -/
def cfgDefault : Config := ⟨300, 5, false, 100⟩

/-- A detection dict with label Person, as camera.py emits one per
    detected person: a frame with two people holds this twice. -/
def detPerson : Detection := ⟨"Person", 1 / 2⟩

/-- C2 counterexample: one frame holding two detections labeled Person
    (two people in view) makes the streak jump to 2 after a single
    process_detections call from the initial state, so the streak
    exceeds the number of frames processed since the subject's last
    absence (at most 1). -/
theorem streak_exceeds_frames_counterexample :
    ((runFrames cfgDefault [(0, "", [detPerson, detPerson])] NMState.initial).1.view "person").streak = 2
    ∧ ¬ ((runFrames cfgDefault [(0, "", [detPerson, detPerson])] NMState.initial).1.view "person").streak
        ≤ [(0, "", [detPerson, detPerson])].length := by
  constructor
  · rfl
  · decide

/-- C2 amended: assuming at most one detection bears the subject's
    label per frame (the code increments the streak once per detection,
    not per frame), the streak after a run that starts at streak 0
    never exceeds the number of frames since the subject's last absent
    frame, and it is monotonically non-decreasing while the subject is
    continuously detected. -/
theorem streak_bound_and_monotone (cfg : Config)
    (frames : List (Int × String × List Detection)) (st : NMState) (s : String)
    (hwf : st.wf) (hone : ∀ f ∈ frames, hits s f.2.2 ≤ 1) :
    ((st.view s).streak = 0 →
      ((runFrames cfg frames st).1.view s).streak
        ≤ sinceAbsent (frames.map (fun f => hits s f.2.2)))
    ∧ ((∀ f ∈ frames, hits s f.2.2 = 1) → ∀ i j, i ≤ j →
      streakAfter cfg frames st s i ≤ streakAfter cfg frames st s j) := by
  constructor
  · intro h0
    obtain ⟨hv, _, _⟩ := runFrames_view cfg frames st s hwf
    rw [hv]
    rw [subjRun_streak_since cfg (frames.map (fun f => (f.1, hits s f.2.2))) (st.view s)
      (by
        intro p hp
        simp only [List.mem_map] at hp
        obtain ⟨f, hf, he⟩ := hp
        rw [← he]
        exact hone f hf)]
    rw [h0]
    have hmm : (frames.map (fun f => (f.1, hits s f.2.2))).map Prod.snd
        = frames.map (fun f => hits s f.2.2) := by
      simp [List.map_map, Function.comp]
    rw [hmm]
    by_cases hz : 0 ∈ frames.map (fun f => hits s f.2.2)
    · simp [hz]
    · simp [hz, sinceAbsent_of_not_mem _ hz]
  · intro hall i j hij
    have key : ∀ i, streakAfter cfg frames st s i = (st.view s).streak + min i frames.length := by
      intro i2
      obtain ⟨hv, _, _⟩ := runFrames_view cfg (frames.take i2) st s hwf
      unfold streakAfter
      rw [hv]
      rw [subjRun_streak_ones cfg ((frames.take i2).map (fun f => (f.1, hits s f.2.2)))
        (st.view s)
        (by
          intro p hp
          simp only [List.mem_map] at hp
          obtain ⟨f, hf, he⟩ := hp
          rw [← he]
          exact hall f (List.take_subset i2 frames hf))]
      simp [List.length_take]
    rw [key i, key j]
    omega

/-- The frames of the two-confirmation cooldown scenario: a first
    confirmed streak whose k-th frame is gA, one frame mid with the
    subject absent, then a second confirmed streak whose k-th frame is
    gC. -/
def twoConfirmFrames (fsA : List (Int × String × List Detection))
    (gA mid : Int × String × List Detection)
    (fsC : List (Int × String × List Detection))
    (gC : Int × String × List Detection) : List (Int × String × List Detection) :=
  fsA ++ gA :: mid :: (fsC ++ [gC])

/-- C3 amended: the cooldown check passes exactly when now minus the
    subject's recorded last-notification time is at least
    cooldownSeconds, never-notified subjects carrying the sentinel
    datetime.min (so the first notification passes whenever
    cooldownSeconds is at most now minus datetime.min, i.e. always for
    realistic cooldowns but not unconditionally); and two confirmed
    presence events for the same subject yield one notification when
    separated by less than cooldownSeconds and two when separated by at
    least cooldownSeconds. -/
theorem cooldown_gate_characterization (cfg : Config) (st : NMState) (s : String)
    (fsA fsC : List (Int × String × List Detection))
    (gA mid gC : Int × String × List Detection) (l : Int)
    (hwf : st.wf) (hview : st.view s = ⟨0, false, l⟩)
    (hallA : ∀ f ∈ fsA ++ [gA], hits s f.2.2 = 1)
    (hmid : hits s mid.2.2 = 0)
    (hallC : ∀ f ∈ fsC ++ [gC], hits s f.2.2 = 1)
    (hlenA : fsA.length + 1 = cfg.persistenceFrames)
    (hlenC : fsC.length + 1 = cfg.persistenceFrames)
    (hcool1 : cfg.cooldownSeconds ≤ gA.1 - l) :
    (∀ (st2 : NMState) (s2 : String) (now : Int),
      isCooledDown cfg st2 s2 now = true ↔
        cfg.cooldownSeconds ≤ now - lookupD st2.lastNotification s2 datetimeMin)
    ∧ (∀ s2 : String, lookupD NMState.initial.lastNotification s2 datetimeMin = datetimeMin)
    ∧ (gC.1 - gA.1 < cfg.cooldownSeconds →
      ((runFrames cfg (twoConfirmFrames fsA gA mid fsC gC) st).2.map (countSubj s)).sum = 1)
    ∧ (cfg.cooldownSeconds ≤ gC.1 - gA.1 →
      ((runFrames cfg (twoConfirmFrames fsA gA mid fsC gC) st).2.map (countSubj s)).sum = 2) := by
  obtain ⟨_, hc, _⟩ := runFrames_view cfg (twoConfirmFrames fsA gA mid fsC gC) st s hwf
  have hgA : hits s gA.2.2 = 1 := hallA gA (by simp)
  have hgC : hits s gC.2.2 = 1 := hallC gC (by simp)
  have hA := map_hits_ones s fsA (fun f hf => hallA f (by simp [hf]))
  have hC := map_hits_ones s fsC (fun f hf => hallC f (by simp [hf]))
  have hmap : (twoConfirmFrames fsA gA mid fsC gC).map (fun f => (f.1, hits s f.2.2))
      = onesFrames (fsA.map Prod.fst ++ [gA.1])
        ++ (mid.1, 0) :: onesFrames (fsC.map Prod.fst ++ [gC.1]) := by
    simp only [twoConfirmFrames, List.map_append, List.map_cons]
    rw [hgA, hgC, hmid, hA, hC]
    simp [onesFrames]
  rw [hmap] at hc
  rw [hview] at hc
  rw [subjRunFrames_append] at hc
  rw [subjRun_fireLast cfg (fsA.map Prod.fst) gA.1 ⟨0, false, l⟩ rfl (by simpa using hlenA)
    (by simpa using hcool1)] at hc
  simp only [subjRunFrames, subjFrame_zero] at hc
  refine ⟨?_, ?_, ?_, ?_⟩
  · intro st2 s2 now
    simp [isCooledDown]
  · intro s2
    rfl
  · intro hlt
    have hsplit : onesFrames (fsC.map Prod.fst ++ [gC.1])
        = onesFrames (fsC.map Prod.fst) ++ [(gC.1, 1)] := by
      simp [onesFrames]
    rw [hsplit, subjRunFrames_append,
      subjRun_noFire_streak cfg (fsC.map Prod.fst) ⟨0, false, gA.1⟩ rfl (by simp; omega),
      subjRun_single,
      subjDetStep_noFire_cooldown cfg gC.1 ⟨0 + (fsC.map Prod.fst).length, false, gA.1⟩
        (by simp; omega)] at hc
    rw [hc]
    simp [List.sum_replicate]
  · intro hge
    rw [subjRun_fireLast cfg (fsC.map Prod.fst) gC.1 ⟨0, false, gA.1⟩ rfl (by simpa using hlenC)
      (by simpa using hge)] at hc
    rw [hc]
    simp [List.sum_replicate]

/-- A configuration whose cooldown window is longer than the span from
    datetime.min to the epoch. -/
def cfgHugeCooldown : Config := ⟨100000000000, 1, false, 100⟩

/-- A detection dict with label Miso as camera.py capitalizes class
    names. -/
def detMiso : Detection := ⟨"Miso", 9 / 10⟩

/-- C3 counterexample: with a cooldown of 10^11 seconds a never-notified
    subject fails the cooldown check at epoch time 0, and its first
    confirmed sighting (persistence threshold 1) emits no notification,
    so the sentinel does not make the first notification pass
    unconditionally. -/
theorem cooldown_first_notification_blocked :
    isCooledDown cfgHugeCooldown NMState.initial "miso" 0 = false
    ∧ (runFrames cfgHugeCooldown [(0, "", [detMiso])] NMState.initial).2.map (countSubj "miso")
        = [0] := by
  constructor
  · decide
  · rfl

/-- A snapshot artifact on disk: its filename and its creation time
    (st_ctime). -/
structure Artifact where
  name : String
  ctime : Int
deriving DecidableEq

/-- The sort key of _cleanup_old_images: ascending creation time. -/
def ctimeLE (a b : Artifact) : Prop := a.ctime ≤ b.ctime

instance : DecidableRel ctimeLE :=
  fun a b => inferInstanceAs (Decidable (a.ctime ≤ b.ctime))

instance : IsTotal Artifact ctimeLE :=
  ⟨fun a b => Int.le_total a.ctime b.ctime⟩

instance : IsTrans Artifact ctimeLE :=
  ⟨fun _ _ _ h1 h2 => le_trans h1 h2⟩

/-- NotificationManager._cleanup_old_images over the directory's jpg
    artifacts: sort ascending by creation time, then pop and delete the
    front while more than max_images remain; the result is the retained
    set.  Python's sorted is a stable comparison sort, modelled with
    insertion sort. -/
def cleanupOldImages (cfg : Config) (files : List Artifact) : List Artifact :=
  if cfg.saveImages = false then files
  else
    let images := List.insertionSort ctimeLE files
    images.drop (images.length - cfg.maxImages)

/-- The storage effect of NotificationManager._save_snapshot: write one
    new artifact into the directory, then run the cleanup pass. -/
def saveSnapshot (cfg : Config) (files : List Artifact) (a : Artifact) : List Artifact :=
  cleanupOldImages cfg (files ++ [a])

/-- How many artifacts of the collection were created strictly later
    than x. -/
def countNewer (x : Artifact) (l : List Artifact) : Nat :=
  (l.filter (fun b => decide (x.ctime < b.ctime))).length

theorem countNewer_cons (x z : Artifact) (t : List Artifact) :
    countNewer x (z :: t) = (if x.ctime < z.ctime then 1 else 0) + countNewer x t := by
  by_cases h : x.ctime < z.ctime
  · simp [countNewer, List.filter_cons, h, Nat.add_comm]
  · simp [countNewer, List.filter_cons, h]

theorem countNewer_le_length (x : Artifact) (l : List Artifact) :
    countNewer x l ≤ l.length :=
  List.length_filter_le _ l

theorem countNewer_lt_length (x : Artifact) (l : List Artifact) (hx : x ∈ l) :
    countNewer x l < l.length := by
  induction l with
  | nil => cases hx
  | cons z t ih =>
    rw [countNewer_cons]
    rcases List.mem_cons.1 hx with he | ht
    · subst he
      have : ¬ x.ctime < x.ctime := lt_irrefl _
      rw [if_neg this]
      have := countNewer_le_length x t
      simp
      omega
    · have := ih ht
      by_cases h : x.ctime < z.ctime
      · rw [if_pos h]
        simp
        omega
      · rw [if_neg h]
        simp
        omega

theorem countNewer_eq_length_of_all (x : Artifact) (t : List Artifact)
    (hall : ∀ b ∈ t, x.ctime < b.ctime) : countNewer x t = t.length := by
  unfold countNewer
  rw [List.filter_eq_self.2 (fun b hb => decide_eq_true (hall b hb))]

theorem mem_drop_iff_countNewer (l : List Artifact) (hsort : l.Sorted ctimeLE)
    (hdist : l.Pairwise (fun a b => a.ctime ≠ b.ctime)) (kk : Nat) (x : Artifact) :
    x ∈ l.drop (l.length - kk) ↔ x ∈ l ∧ countNewer x l < kk := by
  induction l with
  | nil => simp
  | cons y t ih =>
    have hy : ∀ b ∈ t, ctimeLE y b := (List.sorted_cons.1 hsort).1
    have hsort2 : t.Sorted ctimeLE := (List.sorted_cons.1 hsort).2
    have hd1 : ∀ b ∈ t, y.ctime ≠ b.ctime := (List.pairwise_cons.1 hdist).1
    have hdist2 : t.Pairwise (fun a b => a.ctime ≠ b.ctime) := (List.pairwise_cons.1 hdist).2
    have hylt : ∀ b ∈ t, y.ctime < b.ctime :=
      fun b hb => lt_of_le_of_ne (hy b hb) (hd1 b hb)
    have hynt : ¬ y ∈ t := fun h => lt_irrefl _ (hylt y h)
    by_cases hk : (y :: t).length ≤ kk
    · have hz : (y :: t).length - kk = 0 := by omega
      rw [hz, List.drop_zero]
      constructor
      · intro hx
        refine ⟨hx, lt_of_lt_of_le (countNewer_lt_length x (y :: t) hx) hk⟩
      · exact fun hx => hx.1
    · have hz : (y :: t).length - kk = (t.length - kk) + 1 := by
        simp at hk ⊢
        omega
      rw [hz, List.drop_succ_cons]
      rw [ih hsort2 hdist2]
      constructor
      · intro hx
        refine ⟨List.mem_cons_of_mem y hx.1, ?_⟩
        rw [countNewer_cons, if_neg (fun h => absurd (hylt x hx.1) (asymm h))]
        simpa using hx.2
      · intro hx
        rcases List.mem_cons.1 hx.1 with he | ht
        · subst he
          have hcnt : countNewer x (x :: t) = t.length := by
            rw [countNewer_cons, if_neg (lt_irrefl _)]
            rw [countNewer_eq_length_of_all x t hylt]
            simp
          rw [hcnt] at hx
          simp at hk
          omega
        · refine ⟨ht, ?_⟩
          have : countNewer x (y :: t) = countNewer x t := by
            rw [countNewer_cons, if_neg (fun h => absurd (hylt x ht) (asymm h))]
            simp
          omega

/-- C4: after every snapshot save with image saving enabled, at most
    maxImages artifacts are retained, and with distinct creation times
    the retained set is exactly the maxImages most-recently-created
    artifacts: an artifact is kept iff fewer than maxImages artifacts
    of the collection are newer than it. -/
theorem snapshot_retention (cfg : Config) (files : List Artifact) (a : Artifact)
    (hsave : cfg.saveImages = true)
    (hdist : (files ++ [a]).Pairwise (fun p q => p.ctime ≠ q.ctime)) :
    (saveSnapshot cfg files a).length ≤ cfg.maxImages
    ∧ ∀ x, x ∈ saveSnapshot cfg files a ↔
        (x ∈ files ++ [a] ∧ countNewer x (files ++ [a]) < cfg.maxImages) := by
  have hperm : List.Perm (List.insertionSort ctimeLE (files ++ [a])) (files ++ [a]) :=
    List.perm_insertionSort ctimeLE (files ++ [a])
  have hsorted : (List.insertionSort ctimeLE (files ++ [a])).Sorted ctimeLE :=
    List.sorted_insertionSort ctimeLE (files ++ [a])
  have hdist2 : (List.insertionSort ctimeLE (files ++ [a])).Pairwise
      (fun p q => p.ctime ≠ q.ctime) :=
    (hperm.pairwise_iff (fun h => Ne.symm h)).2 hdist
  have hrw : saveSnapshot cfg files a =
      (List.insertionSort ctimeLE (files ++ [a])).drop
        ((List.insertionSort ctimeLE (files ++ [a])).length - cfg.maxImages) := by
    unfold saveSnapshot cleanupOldImages
    rw [hsave]
    simp
  constructor
  · rw [hrw, List.length_drop]
    omega
  · intro x
    rw [hrw, mem_drop_iff_countNewer _ hsorted hdist2 cfg.maxImages x]
    constructor
    · intro hx
      refine ⟨hperm.mem_iff.1 hx.1, ?_⟩
      have : countNewer x (List.insertionSort ctimeLE (files ++ [a]))
          = countNewer x (files ++ [a]) := (hperm.filter _).length_eq
      omega
    · intro hx
      refine ⟨hperm.mem_iff.2 hx.1, ?_⟩
      have : countNewer x (List.insertionSort ctimeLE (files ++ [a]))
          = countNewer x (files ++ [a]) := (hperm.filter _).length_eq
      omega

/-- Path.unlink as the code calls it: without missing_ok, so unlinking
    a file that is no longer on disk raises FileNotFoundError. -/
def unlinkFs (disk : List Artifact) (a : Artifact) : Except String (List Artifact) :=
  if a ∈ disk then Except.ok (disk.erase a) else Except.error "FileNotFoundError"

/-- The while-loop of _cleanup_old_images with the on-disk directory
    tracked separately from the listing (glob runs once, at entry, so a
    concurrent deletion leaves a listed file missing from disk): pop the
    oldest listed artifact and unlink it while more than maxImages
    listed artifacts remain.  There is no try/except around the unlink,
    so its FileNotFoundError aborts the loop. -/
def cleanupLoop (m : Nat) : List Artifact → List Artifact → Except String (List Artifact)
  | [], disk => Except.ok disk
  | oldest :: rest, disk =>
    if m < (oldest :: rest).length then
      match unlinkFs disk oldest with
      | Except.error e => Except.error e
      | Except.ok disk2 => cleanupLoop m rest disk2
    else Except.ok disk

/-- _cleanup_old_images: sort the listing by creation time and run the
    deletion loop against the current disk contents. -/
def cleanupRun (m : Nat) (listing disk : List Artifact) : Except String (List Artifact) :=
  cleanupLoop m (List.insertionSort ctimeLE listing) disk

/-- process_detections with the outcome of the _save_snapshot call made
    explicit: neither _save_snapshot, nor the cleanup inside it, nor
    the call site in process_detections has a try/except, so an
    exception raised while saving propagates out of process_detections
    and no notification list is returned. -/
def processDetsE (cfg : Config) (now : Int) (ts : String) (saveResult : Except String String) :
    List Detection → NMState → List Notification →
    Except String (NMState × List Notification)
  | [], st, ns => Except.ok (st, ns)
  | det :: rest, st, ns =>
    let subject := pyLower det.label
    let streak1 := lookupD st.detectionStreak subject 0 + 1
    let st1 : NMState := { st with detectionStreak := setD st.detectionStreak subject streak1 }
    if streak1 ≥ cfg.persistenceFrames ∧ ¬ subject ∈ st1.currentState ∧
        isCooledDown cfg st1 subject now = true then
      let st2 : NMState := { st1 with
        lastNotification := setD st1.lastNotification subject now
        currentState := st1.currentState ++ [subject] }
      if cfg.saveImages then
        match saveResult with
        | Except.error e => Except.error e
        | Except.ok path =>
          processDetsE cfg now ts saveResult rest st2
            (ns ++ [{ subject := subject
                      message := createNotification subject det.confidence ts
                      imagePath := some path
                      detection := det }])
      else
        processDetsE cfg now ts saveResult rest st2
          (ns ++ [{ subject := subject
                    message := createNotification subject det.confidence ts
                    imagePath := none
                    detection := det }])
    else
      processDetsE cfg now ts saveResult rest st1 ns

/-- process_detections in the exception-aware model. -/
def processDetectionsE (cfg : Config) (now : Int) (ts : String)
    (saveResult : Except String String) (dets : List Detection) (st : NMState) :
    Except String (NMState × List Notification) :=
  match processDetsE cfg now ts saveResult dets st [] with
  | Except.error e => Except.error e
  | Except.ok r => Except.ok (resetAbsent (frameSubjects dets) r.1, r.2)

/-- An older snapshot artifact. -/
def oldSnapshot : Artifact := ⟨"miso_20240101_000000.jpg", 0⟩

/-- A newer snapshot artifact. -/
def newSnapshot : Artifact := ⟨"miso_20240101_000500.jpg", 300⟩

/-- Configuration with image saving on and instant confirmation. -/
def cfgSaveOne : Config := ⟨300, 1, true, 100⟩

/-- C5 (code behavior at the failing input): when the oldest listed
    snapshot was already removed from disk before the loop unlinks it,
    the cleanup raises FileNotFoundError instead of treating the
    deletion as a no-op; and a storage error raised during the snapshot
    save propagates out of process_detections, aborting the
    notification instead of emitting it without an image. -/
theorem storage_errors_propagate :
    cleanupRun 1 [oldSnapshot, newSnapshot] [newSnapshot] = Except.error "FileNotFoundError"
    ∧ processDetectionsE cfgSaveOne 0 "" (Except.error "FileNotFoundError") [detMiso]
        NMState.initial = Except.error "FileNotFoundError" := by
  constructor
  · rfl
  · rfl

/-- A delivery platform as send_notification sees it: a name and the
    outcome of awaiting its send coroutine for a given message and
    optional image (ok, or the exception it raises). -/
structure Platform where
  name : String
  send : String → Option String → Except String Unit

/-- The diagnostic line the except-branch of send_notification prints
    for a failed platform. -/
def failLine (p : Platform) (e : String) : String :=
  "‚ö†Ô∏è  Failed to send notification via " ++ p.name ++ ": " ++ e

/-- NotificationManager.send_notification: iterate the configured
    platforms in order, awaiting each platform's send; the try/except
    around the await converts a raised exception into one printed
    diagnostic line and continues with the next platform, so the call
    itself always returns.  The first component records every attempted
    send with its outcome, in order; the second the printed diagnostic
    lines. -/
def sendNotification (platforms : List Platform) (message : String)
    (imagePath : Option String) : List (String × Except String Unit) × List String :=
  platforms.foldl
    (fun acc p =>
      (acc.1 ++ [(p.name, p.send message imagePath)],
       match p.send message imagePath with
       | Except.ok _ => acc.2
       | Except.error e => acc.2 ++ [failLine p e]))
    ([], [])

theorem sendNotification_go (message : String) (imagePath : Option String)
    (platforms : List Platform) :
    ∀ acc : List (String × Except String Unit) × List String,
    platforms.foldl
      (fun acc p =>
        (acc.1 ++ [(p.name, p.send message imagePath)],
         match p.send message imagePath with
         | Except.ok _ => acc.2
         | Except.error e => acc.2 ++ [failLine p e]))
      acc
    = (acc.1 ++ platforms.map (fun p => (p.name, p.send message imagePath)),
       acc.2 ++ platforms.filterMap (fun p =>
         match p.send message imagePath with
         | Except.ok _ => none
         | Except.error e => some (failLine p e))) := by
  induction platforms with
  | nil =>
    intro acc
    simp
  | cons p rest ih =>
    intro acc
    rw [List.foldl_cons, ih]
    cases hs : p.send message imagePath with
    | ok u =>
      simp [List.filterMap_cons, hs]
    | error e =>
      simp [List.filterMap_cons, hs]

/-- C6: send_notification attempts the send on every configured
    platform in order whatever each outcome is, never fails itself, and
    prints exactly one diagnostic line per failing platform, naming the
    platform and the reason. -/
theorem dispatch_attempts_all_platforms (platforms : List Platform) (message : String)
    (imagePath : Option String) :
    (sendNotification platforms message imagePath).1
        = platforms.map (fun p => (p.name, p.send message imagePath))
    ∧ (sendNotification platforms message imagePath).2
        = platforms.filterMap (fun p =>
            match p.send message imagePath with
            | Except.ok _ => none
            | Except.error e => some (failLine p e)) := by
  unfold sendNotification
  rw [sendNotification_go message imagePath platforms ([], [])]
  simp

/-- A delivery platform in the timing model: its name and how long its
    awaited send takes (nothing in the code bounds it). -/
structure TimedPlatform where
  name : String
  duration : Nat

/-- Timing of send_notification's loop, for platform in platforms:
    await platform.send(...) — each awaited send runs to completion
    before the next begins, advancing the caller's clock by its
    duration; the schedule records each send's start and finish. -/
def dispatchScheduleFrom (clock : Nat) : List TimedPlatform → List (String × Nat × Nat)
  | [] => []
  | p :: rest => (p.name, clock, clock + p.duration) :: dispatchScheduleFrom (clock + p.duration) rest

/-- The schedule of one send_notification call starting at time 0. -/
def dispatchSchedule (ps : List TimedPlatform) : List (String × Nat × Nat) :=
  dispatchScheduleFrom 0 ps

/-- The clock when the loop finishes. -/
def dispatchElapsedFrom (clock : Nat) : List TimedPlatform → Nat
  | [] => clock
  | p :: rest => dispatchElapsedFrom (clock + p.duration) rest

/-- How long one send_notification call takes. -/
def dispatchElapsed (ps : List TimedPlatform) : Nat :=
  dispatchElapsedFrom 0 ps

/-- The total duration of a list of platform sends. -/
def sumDur (ps : List TimedPlatform) : Nat :=
  (ps.map TimedPlatform.duration).sum

theorem dispatchScheduleFrom_get (ps : List TimedPlatform) :
    ∀ (clock i : Nat) (p : TimedPlatform), ps[i]? = some p →
    (dispatchScheduleFrom clock ps)[i]?
      = some (p.name, clock + sumDur (ps.take i), clock + sumDur (ps.take i) + p.duration) := by
  induction ps with
  | nil =>
    intro clock i p hp
    simp at hp
  | cons q rest ih =>
    intro clock i p hp
    match i with
    | 0 =>
      simp at hp
      subst hp
      simp [dispatchScheduleFrom, sumDur]
    | Nat.succ j =>
      simp only [List.getElem?_cons_succ] at hp
      simp only [dispatchScheduleFrom, List.getElem?_cons_succ]
      rw [ih (clock + q.duration) j p hp]
      simp [sumDur, List.take_succ_cons]
      omega

theorem dispatchElapsedFrom_eq (ps : List TimedPlatform) :
    ∀ clock : Nat, dispatchElapsedFrom clock ps = clock + sumDur ps := by
  induction ps with
  | nil =>
    intro clock
    simp [dispatchElapsedFrom, sumDur]
  | cons q rest ih =>
    intro clock
    rw [dispatchElapsedFrom, ih]
    simp [sumDur]
    omega

/-- C7 amended: the platform sends of one dispatched event are awaited
    sequentially in configuration order — the i-th send starts only
    when the previous i sends have all finished — with no per-platform
    timeout bounding any of them, and the dispatch call waits for the
    sum of all the sends' durations. -/
theorem dispatch_sequential_schedule (ps : List TimedPlatform) (i : Nat) (p : TimedPlatform)
    (hp : ps[i]? = some p) :
    (dispatchSchedule ps)[i]?
        = some (p.name, sumDur (ps.take i), sumDur (ps.take i) + p.duration)
    ∧ dispatchElapsed ps = sumDur ps := by
  constructor
  · have := dispatchScheduleFrom_get ps 0 i p hp
    simpa [dispatchSchedule] using this
  · have := dispatchElapsedFrom_eq ps 0
    simpa [dispatchElapsed] using this

/-- A Telegram-like platform whose send takes 5 time units. -/
def timedTelegram : TimedPlatform := ⟨"Telegram", 5⟩

/-- A Discord-like platform whose send takes 5 time units. -/
def timedDiscord : TimedPlatform := ⟨"Discord", 5⟩

/-- C7 counterexample: with two platforms whose sends each take 5 time
    units, the second send starts only at time 5, when the first has
    finished — the sends do not run concurrently — and the dispatch
    call waits 10 time units, more than the slowest platform's own
    duration, there being no per-platform timeout at all. -/
theorem dispatch_sequential_counterexample :
    dispatchSchedule [timedTelegram, timedDiscord]
        = [("Telegram", 0, 5), ("Discord", 5, 10)]
    ∧ dispatchElapsed [timedTelegram, timedDiscord] = 10
    ∧ ¬ dispatchElapsed [timedTelegram, timedDiscord] ≤ timedTelegram.duration
    ∧ ¬ dispatchElapsed [timedTelegram, timedDiscord] ≤ timedDiscord.duration := by
  refine ⟨rfl, rfl, by decide, by decide⟩

/-- C9: message composition is total (a plain function of the subject,
    confidence and time strings) and deterministic: the named subjects
    miso, ozzy and person get their subject-specific templates, and
    every other subject falls through to the generic template with the
    subject capitalized and the confidence rendered as a rounded
    percentage. -/
theorem compose_message_total (subject tstr : String) (conf : ℚ)
    (hunk : ¬ subject ∈ ["miso", "ozzy", "person"]) :
    createNotification "miso" conf tstr
        = "üê± Miso detected! (" ++ pctString conf ++ "% confident) at " ++ tstr
    ∧ createNotification "ozzy" conf tstr
        = "üê± Ozzy detected! (" ++ pctString conf ++ "% confident) at " ++ tstr
    ∧ createNotification "person" conf tstr
        = "üë§ Person detected! (" ++ pctString conf ++ "% confident) at " ++ tstr
    ∧ createNotification subject conf tstr
        = "üîç " ++ pyCapitalize subject ++ " detected! (" ++ pctString conf
            ++ "% confident) at " ++ tstr := by
  simp only [List.mem_cons, List.not_mem_nil, or_false] at hunk
  push_neg at hunk
  refine ⟨rfl, ?_, ?_, ?_⟩
  · simp [createNotification]
  · simp [createNotification]
  · simp [createNotification, hunk.1, hunk.2.1, hunk.2.2]

/-- Configuration with a 3-frame persistence threshold. -/
def cfgThree : Config := ⟨300, 3, true, 100⟩

theorem persistence_confirms_witness :
    (runFrames cfgThree (singleFrames detMiso "" [10, 20] ++ [(30, "", [detMiso])])
        NMState.initial).2.map (countSubj "miso")
      = List.replicate (cfgThree.persistenceFrames - 1) 0 ++ [1] :=
  (persistence_confirms_on_kth_frame cfgThree NMState.initial "miso"
    (singleFrames detMiso "" [10, 20]) (30, "", [detMiso]) datetimeMin
    wf_initial rfl (by decide) (by decide)).1 (by decide) (by decide)

theorem streak_bound_witness :
    ((runFrames cfgDefault [(0, "", [detMiso]), (1, "", []), (2, "", [detMiso])]
        NMState.initial).1.view "miso").streak
      ≤ sinceAbsent ([(0, "", [detMiso]), (1, "", []), (2, "", [detMiso])].map
          (fun f => hits "miso" f.2.2))
    ∧ streakAfter cfgDefault [(0, "", [detMiso]), (1, "", [detMiso])] NMState.initial "miso" 1
      ≤ streakAfter cfgDefault [(0, "", [detMiso]), (1, "", [detMiso])] NMState.initial "miso" 2 :=
  ⟨(streak_bound_and_monotone cfgDefault [(0, "", [detMiso]), (1, "", []), (2, "", [detMiso])]
      NMState.initial "miso" wf_initial (by decide)).1 (by decide),
   (streak_bound_and_monotone cfgDefault [(0, "", [detMiso]), (1, "", [detMiso])]
      NMState.initial "miso" wf_initial (by decide)).2 (by decide) 1 2 (by decide)⟩

/-- Configuration with a 2-frame persistence threshold. -/
def cfgTwo : Config := ⟨300, 2, false, 100⟩

theorem cooldown_gate_witness :
    ((runFrames cfgTwo (twoConfirmFrames (singleFrames detMiso "" [0]) (10, "", [detMiso])
        (20, "", []) (singleFrames detMiso "" [30]) (40, "", [detMiso]))
        NMState.initial).2.map (countSubj "miso")).sum = 1
    ∧ ((runFrames cfgTwo (twoConfirmFrames (singleFrames detMiso "" [0]) (10, "", [detMiso])
        (20, "", []) (singleFrames detMiso "" [30]) (1000, "", [detMiso]))
        NMState.initial).2.map (countSubj "miso")).sum = 2 :=
  ⟨(cooldown_gate_characterization cfgTwo NMState.initial "miso"
      (singleFrames detMiso "" [0]) (singleFrames detMiso "" [30]) (10, "", [detMiso])
      (20, "", []) (40, "", [detMiso]) datetimeMin wf_initial rfl (by decide) (by decide)
      (by decide) (by decide) (by decide) (by decide)).2.2.1 (by decide),
   (cooldown_gate_characterization cfgTwo NMState.initial "miso"
      (singleFrames detMiso "" [0]) (singleFrames detMiso "" [30]) (10, "", [detMiso])
      (20, "", []) (1000, "", [detMiso]) datetimeMin wf_initial rfl (by decide) (by decide)
      (by decide) (by decide) (by decide) (by decide)).2.2.2 (by decide)⟩

/-- Configuration that retains at most two snapshots. -/
def cfgMaxTwo : Config := ⟨300, 5, true, 2⟩

theorem snapshot_retention_witness :
    (saveSnapshot cfgMaxTwo [⟨"a.jpg", 1⟩, ⟨"b.jpg", 2⟩] ⟨"c.jpg", 3⟩).length
        ≤ cfgMaxTwo.maxImages
    ∧ (⟨"a.jpg", 1⟩ ∈ saveSnapshot cfgMaxTwo [⟨"a.jpg", 1⟩, ⟨"b.jpg", 2⟩] ⟨"c.jpg", 3⟩ ↔
        ((⟨"a.jpg", 1⟩ : Artifact) ∈ [⟨"a.jpg", 1⟩, ⟨"b.jpg", 2⟩] ++ [⟨"c.jpg", 3⟩]
          ∧ countNewer ⟨"a.jpg", 1⟩ ([⟨"a.jpg", 1⟩, ⟨"b.jpg", 2⟩] ++ [⟨"c.jpg", 3⟩])
              < cfgMaxTwo.maxImages)) :=
  ⟨(snapshot_retention cfgMaxTwo [⟨"a.jpg", 1⟩, ⟨"b.jpg", 2⟩] ⟨"c.jpg", 3⟩ rfl (by decide)).1,
   (snapshot_retention cfgMaxTwo [⟨"a.jpg", 1⟩, ⟨"b.jpg", 2⟩] ⟨"c.jpg", 3⟩ rfl (by decide)).2
     ⟨"a.jpg", 1⟩⟩

/-- A reachable-shaped state in which miso is marked present with a
    3-frame streak. -/
def stPresent : NMState := ⟨[], ["miso"], [("miso", 3)]⟩

theorem absent_resets_witness :
    ((processDetections cfgDefault 0 "" [] stPresent).1.view "miso").streak = 0
    ∧ ((processDetections cfgDefault 0 "" [] stPresent).1.view "miso").present = false
    ∧ countSubj "miso" (processDetections cfgDefault 0 "" [] stPresent).2 = 0 :=
  absent_resets_immediately cfgDefault 0 "" [] stPresent "miso" (fun _ hs => hs) rfl (Or.inr rfl)

/-- A reachable-shaped state in which miso's streak already reached the
    threshold but the notification was suppressed: last notified at
    time 0, streak 5, not present. -/
def stSuppressed : NMState := ⟨[("miso", 0)], [], [("miso", 5)]⟩

theorem cooldown_rejection_witness :
    (runFrames cfgDefault (singleFrames detMiso "" [100, 200]) stSuppressed).1.view "miso"
        = ⟨5 + (singleFrames detMiso "" [100, 200]).length, false, 0⟩
    ∧ (runFrames cfgDefault (singleFrames detMiso "" [100, 200]
          ++ (400, "", [detMiso]) :: singleFrames detMiso "" [500])
        stSuppressed).2.map (countSubj "miso")
      = List.replicate (singleFrames detMiso "" [100, 200]).length 0
          ++ 1 :: List.replicate (singleFrames detMiso "" [500]).length 0 :=
  cooldown_rejection_rechecked cfgDefault stSuppressed "miso"
    (singleFrames detMiso "" [100, 200]) (400, "", [detMiso]) (singleFrames detMiso "" [500])
    0 5 (fun _ hs => absurd hs (List.not_mem_nil _)) rfl (by decide) (by decide) (by decide)
    (by decide)

theorem dispatch_sequential_witness :
    (dispatchSchedule [timedTelegram, timedDiscord])[1]?
        = some (timedDiscord.name, sumDur ([timedTelegram, timedDiscord].take 1),
            sumDur ([timedTelegram, timedDiscord].take 1) + timedDiscord.duration)
    ∧ dispatchElapsed [timedTelegram, timedDiscord] = sumDur [timedTelegram, timedDiscord] :=
  dispatch_sequential_schedule [timedTelegram, timedDiscord] 1 timedDiscord rfl

theorem compose_message_witness :
    createNotification "ferret" (17 / 20) "07:30 PM"
      = "üîç " ++ pyCapitalize "ferret" ++ " detected! (" ++ pctString (17 / 20)
          ++ "% confident) at " ++ "07:30 PM" :=
  (compose_message_total "ferret" "07:30 PM" (17 / 20) (by decide)).2.2.2

end PetWatcher
